import Mathlib

/-!
Verification of the streaming chat client (karllm-client).

The development shallowly embeds the streaming response decoder
`chatWithLLM` (src/unnamed/part_001, lines 93-154) and the transcript
assembler `handleSend` of `ChatBox` (src/web-client/src/components/
ChatBox.tsx, lines 34-66).

Strings are modelled as lists of Unicode code points (`List Nat`);
bytes on the wire are `Nat` values as well.  The host primitives the
code relies on (`TextDecoder` in utf-8 streaming mode, `String.split`
on the regexes used by the source, `String.trim`, `JSON.parse`,
`Array.join`, `String(...)` coercion) are embedded following their
ECMAScript / WHATWG semantics, restricted to what the source exercises:
JSON numbers are modelled as integers (payloads with fractional or
exponent number literals are treated as parse failures), `\u` escapes
do not combine surrogate pairs, and the byte decoder does not model the
optional BOM stripping (it behaves as `ignoreBOM: true`).
-/

namespace Karllm

/-- Code points of a Lean string literal, used to write wire inputs. -/
def strCodes (s : String) : List Nat := s.toList.map Char.toNat

/-! ### Splitting on the frame and line separators

`chatWithLLM` splits its text buffer with `buffer.split(/\r?\n\r?\n/)`
(line 122) and each event with `event.split(/\r?\n/)` (line 125). -/

/-- `consCur c segs` prepends the character `c` onto the first segment
of a split result (the segment currently being accumulated). -/
def consCur (c : Nat) : List (List Nat) → List (List Nat)
  | [] => [[c]]
  | s :: ss => (c :: s) :: ss

/-- Embedding of `buffer.split(/\r?\n\r?\n/)` from chatWithLLM line 122:
leftmost matching of the blank-line separator.  The possible separator
matches at a position are `\r\n\r\n`, `\r\n\n`, `\n\r\n` and `\n\n`
(the optional `\r`s are taken greedily, which coincides with the
backtracking regex semantics for this pattern). -/
def splitBlank : List Nat → List (List Nat)
  | 13 :: 10 :: 13 :: 10 :: rest => [] :: splitBlank rest
  | 13 :: 10 :: 10 :: rest => [] :: splitBlank rest
  | 10 :: 13 :: 10 :: rest => [] :: splitBlank rest
  | 10 :: 10 :: rest => [] :: splitBlank rest
  | c :: rest => consCur c (splitBlank rest)
  | [] => [[]]

/-- Embedding of `event.split(/\r?\n/)` from chatWithLLM line 125. -/
def splitLines : List Nat → List (List Nat)
  | 13 :: 10 :: rest => [] :: splitLines rest
  | 10 :: rest => [] :: splitLines rest
  | c :: rest => consCur c (splitLines rest)
  | [] => [[]]

/-- ECMAScript `WhiteSpace` / `LineTerminator` code points removed by
`String.prototype.trim` (chatWithLLM line 127). -/
def isJsWhite (c : Nat) : Bool :=
  c = 9 ∨ c = 10 ∨ c = 11 ∨ c = 12 ∨ c = 13 ∨ c = 32 ∨ c = 160 ∨
  c = 0x1680 ∨ (0x2000 ≤ c ∧ c ≤ 0x200A) ∨ c = 0x2028 ∨ c = 0x2029 ∨
  c = 0x202F ∨ c = 0x205F ∨ c = 0x3000 ∨ c = 0xFEFF

/-- Embedding of `String.prototype.trim`. -/
def jsTrim (s : List Nat) : List Nat :=
  ((s.dropWhile isJsWhite).reverse.dropWhile isJsWhite).reverse

/-! ### The utf-8 streaming text decoder

`chatWithLLM` decodes each network chunk with
`decoder.decode(value, { stream: true })` (line 121) where `decoder`
is a `new TextDecoder("utf-8")` (line 115).  The WHATWG utf-8 decoder
is embedded as `utf8Go`: it decodes the maximal complete prefix of the
byte list, emits U+FFFD for invalid sequences (restarting at the
offending byte), and returns the trailing incomplete sequence, which
streaming mode carries over to the next chunk. -/

/-- Pair a decoded code point onto a decode result. -/
def consOut (c : Nat) (r : List Nat × List Nat) : List Nat × List Nat := (c :: r.1, r.2)

/-- A plain utf-8 continuation byte. -/
def utf8Cont (b : Nat) : Bool := 0x80 ≤ b ∧ b ≤ 0xBF

/-- WHATWG lower boundary for the first continuation byte of a lead. -/
def utf8Lo (lead : Nat) : Nat := if lead = 0xE0 then 0xA0 else if lead = 0xF0 then 0x90 else 0x80

/-- WHATWG upper boundary for the first continuation byte of a lead. -/
def utf8Hi (lead : Nat) : Nat := if lead = 0xED then 0x9F else if lead = 0xF4 then 0x8F else 0xBF

/-- First continuation byte check, with the lead-dependent boundaries. -/
def utf8ContIn (lead b : Nat) : Bool := utf8Lo lead ≤ b ∧ b ≤ utf8Hi lead

/-- Code point of a two-byte utf-8 sequence. -/
def cp2 (b b2 : Nat) : Nat := (b - 0xC0) * 0x40 + (b2 - 0x80)

/-- Code point of a three-byte utf-8 sequence. -/
def cp3 (b b2 b3 : Nat) : Nat := (b - 0xE0) * 0x1000 + (b2 - 0x80) * 0x40 + (b3 - 0x80)

/-- Code point of a four-byte utf-8 sequence. -/
def cp4 (b b2 b3 b4 : Nat) : Nat :=
  (b - 0xF0) * 0x40000 + (b2 - 0x80) * 0x1000 + (b3 - 0x80) * 0x40 + (b4 - 0x80)

/-- One pass of the WHATWG utf-8 decoder: decoded code points plus the
trailing bytes that form an incomplete (but so far valid) sequence. -/
def utf8Go : List Nat → List Nat × List Nat
  | [] => ([], [])
  | b :: rest =>
    if b < 0x80 then consOut b (utf8Go rest)
    else if b < 0xC2 then consOut 0xFFFD (utf8Go rest)
    else if b ≤ 0xDF then
      match rest with
      | [] => ([], [b])
      | b2 :: rest2 =>
        if utf8Cont b2 then consOut (cp2 b b2) (utf8Go rest2)
        else consOut 0xFFFD (utf8Go (b2 :: rest2))
    else if b ≤ 0xEF then
      match rest with
      | [] => ([], [b])
      | b2 :: rest2 =>
        if utf8ContIn b b2 then
          match rest2 with
          | [] => ([], [b, b2])
          | b3 :: rest3 =>
            if utf8Cont b3 then consOut (cp3 b b2 b3) (utf8Go rest3)
            else consOut 0xFFFD (utf8Go (b3 :: rest3))
        else consOut 0xFFFD (utf8Go (b2 :: rest2))
    else if b ≤ 0xF4 then
      match rest with
      | [] => ([], [b])
      | b2 :: rest2 =>
        if utf8ContIn b b2 then
          match rest2 with
          | [] => ([], [b, b2])
          | b3 :: rest3 =>
            if utf8Cont b3 then
              match rest3 with
              | [] => ([], [b, b2, b3])
              | b4 :: rest4 =>
                if utf8Cont b4 then consOut (cp4 b b2 b3 b4) (utf8Go rest4)
                else consOut 0xFFFD (utf8Go (b4 :: rest4))
            else consOut 0xFFFD (utf8Go (b3 :: rest3))
        else consOut 0xFFFD (utf8Go (b2 :: rest2))
    else consOut 0xFFFD (utf8Go rest)

/-- utf-8 encoding of a code point, to state round-trip properties. -/
def utf8Encode (c : Nat) : List Nat :=
  if c < 0x80 then [c]
  else if c < 0x800 then [0xC0 + c / 0x40, 0x80 + c % 0x40]
  else if c < 0x10000 then
    [0xE0 + c / 0x1000, 0x80 + (c / 0x40) % 0x40, 0x80 + c % 0x40]
  else
    [0xF0 + c / 0x40000, 0x80 + (c / 0x1000) % 0x40, 0x80 + (c / 0x40) % 0x40, 0x80 + c % 0x40]

/-! ### The JSON model

`chatWithLLM` parses each raw payload with `JSON.parse(raw)` (line 134)
and then inspects `msg.text`.  JSON values are embedded as `JsValue`
(`vUndef` is the result of reading an absent property, as in
JavaScript; the parser itself never produces it). -/

inductive JsValue where
  | vStr : List Nat → JsValue
  | vNum : Int → JsValue
  | vBool : Bool → JsValue
  | vNull : JsValue
  | vArr : List JsValue → JsValue
  | vObj : List (List Nat × JsValue) → JsValue
  | vUndef : JsValue

/-- JSON insignificant whitespace. -/
def jsonWs (c : Nat) : Bool := c = 32 ∨ c = 9 ∨ c = 10 ∨ c = 13

/-- Skip JSON whitespace. -/
def skipWs (s : List Nat) : List Nat := s.dropWhile jsonWs

/-- Hexadecimal digit value. -/
def hexVal (c : Nat) : Option Nat :=
  if 48 ≤ c ∧ c ≤ 57 then some (c - 48)
  else if 65 ≤ c ∧ c ≤ 70 then some (c - 55)
  else if 97 ≤ c ∧ c ≤ 102 then some (c - 87)
  else none

/-- Parse a JSON string body (after the opening quote); returns the
decoded code points and the input after the closing quote. -/
def parseStr : Nat → List Nat → Option (List Nat × List Nat)
  | 0, _ => none
  | _ + 1, [] => none
  | fuel + 1, c :: rest =>
    if c = 34 then some ([], rest)
    else if c = 92 then
      match rest with
      | [] => none
      | e :: rest2 =>
        if e = 34 ∨ e = 92 ∨ e = 47 then
          (parseStr fuel rest2).map (fun p => (e :: p.1, p.2))
        else if e = 98 then (parseStr fuel rest2).map (fun p => (8 :: p.1, p.2))
        else if e = 102 then (parseStr fuel rest2).map (fun p => (12 :: p.1, p.2))
        else if e = 110 then (parseStr fuel rest2).map (fun p => (10 :: p.1, p.2))
        else if e = 114 then (parseStr fuel rest2).map (fun p => (13 :: p.1, p.2))
        else if e = 116 then (parseStr fuel rest2).map (fun p => (9 :: p.1, p.2))
        else if e = 117 then
          match rest2 with
          | h1 :: h2 :: h3 :: h4 :: rest3 =>
            match hexVal h1, hexVal h2, hexVal h3, hexVal h4 with
            | some v1, some v2, some v3, some v4 =>
              (parseStr fuel rest3).map
                (fun p => ((v1 * 4096 + v2 * 256 + v3 * 16 + v4) :: p.1, p.2))
            | _, _, _, _ => none
          | _ => none
        else none
    else if c < 32 then none
    else (parseStr fuel rest).map (fun p => (c :: p.1, p.2))

/-- Decimal digit. -/
def isDigit (c : Nat) : Bool := 48 ≤ c ∧ c ≤ 57

/-- Value of a digit list. -/
def digitsToNat (ds : List Nat) : Nat := ds.foldl (fun a c => a * 10 + (c - 48)) 0

/-- Parse a JSON integer literal (minus sign, no leading zeros; inputs
with a fraction or exponent are outside this model and fail). -/
def parseNum (s : List Nat) : Option (Int × List Nat) :=
  let neg : Bool := match s with | 45 :: _ => true | _ => false
  let s1 := match s with | 45 :: t => t | _ => s
  let ds := s1.takeWhile isDigit
  let rest := s1.dropWhile isDigit
  if ds = [] then none
  else if 1 < ds.length ∧ ds.headD 0 = 48 then none
  else
    match rest with
    | 46 :: _ => none
    | 101 :: _ => none
    | 69 :: _ => none
    | _ =>
      let n : Int := Int.ofNat (digitsToNat ds)
      some (if neg then -n else n, rest)

mutual

/-- Parse one JSON value (after optional leading whitespace). -/
def parseVal : Nat → List Nat → Option (JsValue × List Nat)
  | 0, _ => none
  | fuel + 1, s =>
    match skipWs s with
    | [] => none
    | c :: rest =>
      if c = 34 then
        (parseStr (rest.length + 1) rest).map (fun p => (JsValue.vStr p.1, p.2))
      else if c = 123 then
        match skipWs rest with
        | 125 :: r2 => some (JsValue.vObj [], r2)
        | _ => (parseMembers fuel rest).map (fun p => (JsValue.vObj p.1, p.2))
      else if c = 91 then
        match skipWs rest with
        | 93 :: r2 => some (JsValue.vArr [], r2)
        | _ => (parseElems fuel rest).map (fun p => (JsValue.vArr p.1, p.2))
      else if c = 116 then
        match rest with
        | 114 :: 117 :: 101 :: r => some (JsValue.vBool true, r)
        | _ => none
      else if c = 102 then
        match rest with
        | 97 :: 108 :: 115 :: 101 :: r => some (JsValue.vBool false, r)
        | _ => none
      else if c = 110 then
        match rest with
        | 117 :: 108 :: 108 :: r => some (JsValue.vNull, r)
        | _ => none
      else
        (parseNum (c :: rest)).map (fun p => (JsValue.vNum p.1, p.2))

/-- Parse the elements of a non-empty JSON array, up to and including
the closing bracket. -/
def parseElems : Nat → List Nat → Option (List JsValue × List Nat)
  | 0, _ => none
  | fuel + 1, s =>
    match parseVal fuel s with
    | none => none
    | some (v, r) =>
      match skipWs r with
      | 44 :: r2 => (parseElems fuel r2).map (fun p => (v :: p.1, p.2))
      | 93 :: r2 => some ([v], r2)
      | _ => none

/-- Parse the members of a non-empty JSON object, up to and including
the closing brace. -/
def parseMembers : Nat → List Nat → Option (List (List Nat × JsValue) × List Nat)
  | 0, _ => none
  | fuel + 1, s =>
    match skipWs s with
    | 34 :: r =>
      match parseStr (r.length + 1) r with
      | none => none
      | some (key, r2) =>
        match skipWs r2 with
        | 58 :: r3 =>
          match parseVal fuel r3 with
          | none => none
          | some (v, r4) =>
            match skipWs r4 with
            | 44 :: r5 => (parseMembers fuel r5).map (fun p => ((key, v) :: p.1, p.2))
            | 125 :: r5 => some ([(key, v)], r5)
            | _ => none
        | _ => none
    | _ => none

end

/-- Embedding of `JSON.parse` over code-point lists: one value,
trailing whitespace allowed, nothing else after it. -/
def jsonParse (s : List Nat) : Option JsValue :=
  match parseVal (2 * s.length + 2) s with
  | some (v, r) => if skipWs r = [] then some v else none
  | none => none

/-- Property access `msg[key]`: the last member with the key (as
`JSON.parse` keeps the last duplicate), `undefined` when absent or when
the value is not an object. -/
def getField (v : JsValue) (key : List Nat) : JsValue :=
  match v with
  | JsValue.vObj ms =>
    (ms.foldl (fun acc m => if m.1 = key then some m.2 else acc) none).getD JsValue.vUndef
  | _ => JsValue.vUndef

/-- Decimal digits of a natural number (fuel-driven). -/
def natToCodesAux : Nat → Nat → List Nat
  | 0, _ => []
  | fuel + 1, n => if n < 10 then [48 + n] else natToCodesAux fuel (n / 10) ++ [48 + n % 10]

/-- Decimal digits of a natural number. -/
def natToCodes (n : Nat) : List Nat := natToCodesAux (n + 1) n

/-- Decimal representation of an integer. -/
def intToCodes : Int → List Nat
  | Int.ofNat n => natToCodes n
  | Int.negSucc m => 45 :: natToCodes (m + 1)

/-- Worker for the ECMAScript `String(...)` coercion and
`Array.prototype.join`: `Sum.inl (isElem, v)` coerces one value
(`isElem` marks a join element, where `null`/`undefined` become the
empty string), `Sum.inr es` joins a list with the separator. -/
def jsCoAux : Nat → List Nat → Sum (Bool × JsValue) (List JsValue) → List Nat
  | 0, _, _ => []
  | _ + 1, _, Sum.inl (true, JsValue.vNull) => []
  | _ + 1, _, Sum.inl (true, JsValue.vUndef) => []
  | _ + 1, _, Sum.inl (false, JsValue.vNull) => strCodes "null"
  | _ + 1, _, Sum.inl (false, JsValue.vUndef) => strCodes "undefined"
  | _ + 1, _, Sum.inl (_, JsValue.vStr s) => s
  | _ + 1, _, Sum.inl (_, JsValue.vNum n) => intToCodes n
  | _ + 1, _, Sum.inl (_, JsValue.vBool true) => strCodes "true"
  | _ + 1, _, Sum.inl (_, JsValue.vBool false) => strCodes "false"
  | _ + 1, _, Sum.inl (_, JsValue.vObj _) => strCodes "[object Object]"
  | fuel + 1, _, Sum.inl (_, JsValue.vArr es) => jsCoAux fuel (strCodes ",") (Sum.inr es)
  | _ + 1, _, Sum.inr [] => []
  | fuel + 1, sep, Sum.inr [e] => jsCoAux fuel sep (Sum.inl (true, e))
  | fuel + 1, sep, Sum.inr (e :: es) =>
    jsCoAux fuel sep (Sum.inl (true, e)) ++ sep ++ jsCoAux fuel sep (Sum.inr es)

/-- ECMAScript `String(v)`, with a recursion bound; the caller passes a
bound that covers the value (values decoded from a payload of `n`
characters need less than `n + 1`). -/
def jsToStringN (fuel : Nat) (v : JsValue) : List Nat :=
  jsCoAux (fuel + 1) [] (Sum.inl (false, v))

/-- ECMAScript `es.join("")` as used on `msg.text` (line 146), with the
same recursion bound discipline. -/
def jsJoinEmptyN (fuel : Nat) (es : List JsValue) : List Nat :=
  jsCoAux (fuel + 1) [] (Sum.inr es)

/-! ### The line decoder -/

/-- The payload line marker `data:` of chatWithLLM line 126. -/
def dataTag : List Nat := strCodes "data:"

/-- The end-of-stream sentinel `[DONE]`. -/
def doneTok : List Nat := strCodes "[DONE]"

/-- Strict equality `msg.text === "[DONE]"` (line 135): true only for
the string value equal to the sentinel. -/
def isTextDone (v : JsValue) : Bool :=
  match v with
  | JsValue.vStr s => s = doneTok
  | _ => false

/-- Normalization of the `text` field, lines 144-149: arrays are joined
with the empty separator, strings pass through, anything else is
coerced with `String(...)`.  `fuel` bounds the coercion recursion; the
decoder passes the payload length, which always suffices for values
parsed from that payload. -/
def normalizeText (fuel : Nat) : JsValue → List Nat
  | JsValue.vArr es => jsJoinEmptyN fuel es
  | JsValue.vStr s => s
  | v => jsToStringN fuel v

/-- Outcome of one line of an event. -/
inductive LineOut where
  | skip : LineOut
  | emit : List Nat → LineOut
  | done : LineOut

/-- The property name `text` accessed by `msg.text`. -/
def textKeyCodes : List Nat := strCodes "text"

/-- Lines 126-150 of chatWithLLM for a single line: skip lines without
the `data:` marker; strip it and trim; terminate on the bare sentinel;
on parse failure emit the raw payload; when the payload parses to the
JSON literal `null`, the `msg.text` access on line 135 sits inside the
try and throws a TypeError, so the catch emits the raw payload as well
(property access on any other parsed value — numbers, booleans,
strings, arrays, objects — does not throw); terminate when the parsed
`text` field is strictly equal to the sentinel string; otherwise emit
the normalized `text` field.  (The array-form sentinel check on line
136 is an expression statement whose value is discarded, so it does
not appear here.) -/
def processLine (line : List Nat) : LineOut :=
  if ¬ dataTag.isPrefixOf line then LineOut.skip
  else
    let raw := jsTrim (line.drop 5)
    if raw = doneTok then LineOut.done
    else
      match jsonParse raw with
      | none => LineOut.emit raw
      | some JsValue.vNull => LineOut.emit raw
      | some v =>
        if isTextDone (getField v textKeyCodes) then LineOut.done
        else LineOut.emit (normalizeText raw.length (getField v textKeyCodes))

/-- Process the lines of one event in order; the Bool is true when the
sentinel terminated the stream (the remaining lines are discarded). -/
def processLines : List (List Nat) → List (List Nat) × Bool
  | [] => ([], false)
  | l :: ls =>
    match processLine l with
    | LineOut.done => ([], true)
    | LineOut.skip => processLines ls
    | LineOut.emit f =>
      let r := processLines ls
      (f :: r.1, r.2)

/-- Process complete events in order, stopping at sentinel termination. -/
def processEvents : List (List Nat) → List (List Nat) × Bool
  | [] => ([], false)
  | e :: es =>
    let r := processLines (splitLines e)
    if r.2 then (r.1, true)
    else
      let r2 := processEvents es
      (r.1 ++ r2.1, r2.2)

/-! ### The chunk loop -/

/-- Decoder state between two reads: the pending utf-8 bytes held by
the streaming `TextDecoder` and the unterminated text buffer kept by
`buffer = events.pop()` (line 123). -/
structure DecState where
  pending : List Nat
  buffer : List Nat

/-- One iteration of the `while (true)` read loop (lines 118-153) for
one chunk of bytes: decode, append to the buffer, split into events,
keep the trailing incomplete event, process the complete events. -/
def stepChunk (st : DecState) (bytes : List Nat) : List (List Nat) × DecState × Bool :=
  let d := utf8Go (st.pending ++ bytes)
  let buf := st.buffer ++ d.1
  let evs := splitBlank buf
  let r := processEvents evs.dropLast
  (r.1, ⟨d.2, evs.getLastD []⟩, r.2)

/-- Run the read loop over a list of chunks (the successive values the
body reader yields); stops early on sentinel termination (`return`
after `reader.cancel()`), otherwise ends when the body is done.  The
Bool is true when the sentinel caused the termination. -/
def runChunks : DecState → List (List Nat) → List (List Nat) × Bool
  | _, [] => ([], false)
  | st, c :: cs =>
    let r := stepChunk st c
    if r.2.2 then (r.1, true)
    else
      let r2 := runChunks r.2.1 cs
      (r.1 ++ r2.1, r2.2)

/-- The whole decode of a response body delivered as a list of byte
chunks: the emitted fragments (the successive `onChunk` arguments), and
whether the sentinel terminated the stream. -/
def chatDecode (chunks : List (List Nat)) : List (List Nat) × Bool :=
  runChunks ⟨[], []⟩ chunks

/-! ### The response / error model of chatWithLLM -/

/-- The response as chatWithLLM observes it: `res.ok`, `res.status`,
and `res.body` as the list of chunks the reader will yield (`none`
models a missing body). -/
structure ChatResponse where
  ok : Bool
  status : Nat
  body : Option (List (List Nat))

/-- The errors thrown by chatWithLLM before reading (lines 107-112). -/
inductive ChatError where
  | requestFailed : Nat → ChatError
  | noBody : ChatError

/-- chatWithLLM after the fetch: throw on a non-ok status (line 107),
throw on a missing body (line 110), otherwise run the decode loop.  An
`Except.error` carries no fragments: nothing was emitted before the
throw. -/
def chatWithLLMModel (res : ChatResponse) : Except ChatError (List (List Nat) × Bool) :=
  if ¬ res.ok then Except.error (ChatError.requestFailed res.status)
  else
    match res.body with
    | none => Except.error ChatError.noBody
    | some chunks => Except.ok (chatDecode chunks)

/-! ### The transcript assembler (ChatBox.handleSend) -/

/-- Message roles. -/
inductive Role where
  | user : Role
  | assistant : Role
deriving DecidableEq

/-- A transcript message. -/
structure Message where
  role : Role
  content : List Nat
deriving DecidableEq

/-- The fold step of ChatBox.tsx lines 46-57: ignore fragments on an
empty transcript; if the last message is not an assistant message,
append a new assistant message holding the fragment; otherwise replace
the last message by a copy with the fragment appended to its content. -/
def foldChunk (msgs : List Message) (chunk : List Nat) : List Message :=
  match msgs.getLast? with
  | none => msgs
  | some last =>
    if last.role ≠ Role.assistant then msgs ++ [⟨Role.assistant, chunk⟩]
    else msgs.dropLast ++ [⟨last.role, last.content ++ chunk⟩]

/-- The ChatBox state touched by handleSend: the transcript and the
streaming flag. -/
structure ChatState where
  messages : List Message
  streaming : Bool
deriving DecidableEq

/-- ChatBox.tsx lines 34-66: return unchanged on blank input (line 35);
otherwise append the user message and an empty assistant message, set
streaming, run chatWithLLM folding each fragment into the transcript
(fragments of an erroring request are none, since chatWithLLM throws
before reading on the modelled failures and the catch only logs), and
in all cases clear the streaming flag (the `finally`). -/
def handleSendModel (st : ChatState) (input : List Nat) (res : ChatResponse) : ChatState :=
  if jsTrim input = [] then st
  else
    let msgs := st.messages ++ [⟨Role.user, input⟩, ⟨Role.assistant, []⟩]
    let msgs2 :=
      match chatWithLLMModel res with
      | Except.ok out => out.1.foldl foldChunk msgs
      | Except.error _ => msgs
    ⟨msgs2, false⟩

/-! ## Helper lemmas

### Carrying the unterminated remainder through `splitBlank` -/

theorem splitBlank_ne_nil (s : List Nat) : splitBlank s ≠ [] := by
  induction s using splitBlank.induct <;> simp_all [splitBlank, consCur]
  case _ c rest h1 h2 h3 h4 ih =>
    cases h : splitBlank rest with
    | nil => exact absurd h ih
    | cons a b => simp [consCur, h]

theorem splitBlank_generic (c : Nat) (rest : List Nat)
    (h1 : ∀ (r1 : List Nat), c = 13 → rest = 10 :: 13 :: 10 :: r1 → False)
    (h2 : ∀ (r1 : List Nat), c = 13 → rest = 10 :: 10 :: r1 → False)
    (h3 : ∀ (r1 : List Nat), c = 10 → rest = 13 :: 10 :: r1 → False)
    (h4 : ∀ (r1 : List Nat), c = 10 → rest = 10 :: r1 → False) :
    splitBlank (c :: rest) = consCur c (splitBlank rest) := by
  rw [splitBlank.eq_def]
  split
  · rename_i r1 heq; injection heq with hc hr; exact (h1 _ hc hr).elim
  · rename_i r1 heq; injection heq with hc hr; exact (h2 _ hc hr).elim
  · rename_i r1 heq; injection heq with hc hr; exact (h3 _ hc hr).elim
  · rename_i r1 heq; injection heq with hc hr; exact (h4 _ hc hr).elim
  · rename_i c2 rest2 heq; injection heq with hc hr; rw [hc, hr]
  · rename_i heq; exact absurd heq (by simp)

theorem splitBlank_singleton (s r : List Nat) (h : splitBlank s = [r]) : r = s := by
  induction s using splitBlank.induct generalizing r with
  | case1 rest ih | case2 rest ih | case3 rest ih | case4 rest ih =>
    rw [splitBlank] at h
    simp at h
    exact absurd h.2 (splitBlank_ne_nil rest)
  | case5 c rest h1 h2 h3 h4 ih =>
    rw [splitBlank_generic c rest h1 h2 h3 h4] at h
    cases hs : splitBlank rest with
    | nil => exact absurd hs (splitBlank_ne_nil rest)
    | cons a bb =>
      rw [hs] at h
      simp only [consCur] at h
      have hbb : bb = [] := by
        have := congrArg List.length h; simpa using this
      subst hbb
      have hr : r = c :: a := by simpa using h.symm
      have ha : a = rest := ih a (by rw [hs])
      rw [hr, ha]
  | case6 =>
    rw [splitBlank] at h
    simp at h
    exact h

theorem append_eq_cons3 (rest b r1 : List Nat) (x y z : Nat)
    (h : rest ++ b = x :: y :: z :: r1) :
    rest = [] ∨ rest = [x] ∨ rest = [x, y] ∨ ∃ t, rest = x :: y :: z :: t := by
  rcases rest with _ | ⟨a1, _ | ⟨a2, _ | ⟨a3, t⟩⟩⟩ <;> simp_all

theorem append_eq_cons2 (rest b r1 : List Nat) (x y : Nat)
    (h : rest ++ b = x :: y :: r1) :
    rest = [] ∨ rest = [x] ∨ ∃ t, rest = x :: y :: t := by
  rcases rest with _ | ⟨a1, _ | ⟨a2, t⟩⟩ <;> simp_all

theorem append_eq_cons1 (rest b r1 : List Nat) (x : Nat)
    (h : rest ++ b = x :: r1) :
    rest = [] ∨ ∃ t, rest = x :: t := by
  rcases rest with _ | ⟨a1, t⟩ <;> simp_all

/-- The carry property behind `buffer = events.pop()` (line 123): the
events found in a text are the events of any prefix except its
unterminated remainder, followed by the events of that remainder glued
to the rest of the text.  This is what makes the re-splitting of
`buffer` on the next read see exactly the separators of the full text. -/
theorem splitBlank_append (a b : List Nat) :
    ∃ E r, splitBlank a = E ++ [r] ∧ splitBlank (a ++ b) = E ++ splitBlank (r ++ b) := by
  induction a using splitBlank.induct with
  | case1 rest ih | case2 rest ih | case3 rest ih | case4 rest ih =>
    obtain ⟨E, r, hE, hEb⟩ := ih
    exact ⟨[] :: E, r, by simp [splitBlank, hE], by simp [splitBlank, hEb]⟩
  | case6 =>
    exact ⟨[], [], by simp [splitBlank], by simp⟩
  | case5 c rest h1 h2 h3 h4 ih =>
    obtain ⟨E, r, hE, hEb⟩ := ih
    cases E with
    | nil =>
      have hr : r = rest := splitBlank_singleton rest r (by simpa using hE)
      refine ⟨[], c :: rest, ?_, by simp⟩
      rw [splitBlank_generic c rest h1 h2 h3 h4, hE, hr]
      simp [consCur]
    | cons e E2 =>
      have hlong : ∀ s : List Nat, splitBlank rest = [s] → False := by
        intro s hs
        rw [hE] at hs
        have := congrArg List.length hs
        simp at this
      have h1b : ∀ (r1 : List Nat), c = 13 → rest ++ b = 10 :: 13 :: 10 :: r1 → False := by
        intro r1 hc hr
        rcases append_eq_cons3 rest b r1 10 13 10 hr with h | h | h | ⟨t, h⟩
        · exact hlong [] (by rw [h]; rfl)
        · exact hlong [10] (by rw [h]; rfl)
        · exact hlong [10, 13] (by rw [h]; rfl)
        · exact h1 t hc h
      have h2b : ∀ (r1 : List Nat), c = 13 → rest ++ b = 10 :: 10 :: r1 → False := by
        intro r1 hc hr
        rcases append_eq_cons2 rest b r1 10 10 hr with h | h | ⟨t, h⟩
        · exact hlong [] (by rw [h]; rfl)
        · exact hlong [10] (by rw [h]; rfl)
        · exact h2 t hc h
      have h3b : ∀ (r1 : List Nat), c = 10 → rest ++ b = 13 :: 10 :: r1 → False := by
        intro r1 hc hr
        rcases append_eq_cons2 rest b r1 13 10 hr with h | h | ⟨t, h⟩
        · exact hlong [] (by rw [h]; rfl)
        · exact hlong [13] (by rw [h]; rfl)
        · exact h3 t hc h
      have h4b : ∀ (r1 : List Nat), c = 10 → rest ++ b = 10 :: r1 → False := by
        intro r1 hc hr
        rcases append_eq_cons1 rest b r1 10 hr with h | ⟨t, h⟩
        · exact hlong [] (by rw [h]; rfl)
        · exact h4 t hc h
      refine ⟨(c :: e) :: E2, r, ?_, ?_⟩
      · rw [splitBlank_generic c rest h1 h2 h3 h4, hE]
        simp [consCur]
      · have hccat : (c :: rest) ++ b = c :: (rest ++ b) := by simp
        rw [hccat, splitBlank_generic c (rest ++ b) h1b h2b h3b h4b, hEb]
        simp [consCur]

/-! ### Branch lemmas for the utf-8 decoder -/

theorem utf8Go_ascii (b : Nat) (rest : List Nat) (h : b < 0x80) :
    utf8Go (b :: rest) = consOut b (utf8Go rest) := by
  rw [utf8Go.eq_def]; simp only [if_pos h]

theorem utf8Go_stray (b : Nat) (rest : List Nat) (h1 : ¬ b < 0x80) (h2 : b < 0xC2) :
    utf8Go (b :: rest) = consOut 0xFFFD (utf8Go rest) := by
  rw [utf8Go.eq_def]; simp only [if_neg h1, if_pos h2]

theorem utf8Go_hi (b : Nat) (rest : List Nat) (h : ¬ b ≤ 0xF4) :
    utf8Go (b :: rest) = consOut 0xFFFD (utf8Go rest) := by
  rw [utf8Go.eq_def]
  simp only [if_neg (show ¬ b < 0x80 by omega), if_neg (show ¬ b < 0xC2 by omega),
    if_neg (show ¬ b ≤ 0xDF by omega), if_neg (show ¬ b ≤ 0xEF by omega), if_neg h]

theorem utf8Go_l2_pend (b : Nat) (h1 : ¬ b < 0xC2) (h2 : b ≤ 0xDF) :
    utf8Go [b] = ([], [b]) := by
  rw [utf8Go.eq_def]
  simp only [if_neg (show ¬ b < 0x80 by omega), if_neg h1, if_pos h2]

theorem utf8Go_l2_ok (b b2 : Nat) (rest : List Nat) (h1 : ¬ b < 0xC2) (h2 : b ≤ 0xDF)
    (hc : utf8Cont b2 = true) :
    utf8Go (b :: b2 :: rest) = consOut (cp2 b b2) (utf8Go rest) := by
  rw [utf8Go.eq_def]
  simp only [if_neg (show ¬ b < 0x80 by omega), if_neg h1, if_pos h2, if_pos hc]

theorem utf8Go_l2_bad (b b2 : Nat) (rest : List Nat) (h1 : ¬ b < 0xC2) (h2 : b ≤ 0xDF)
    (hc : ¬ utf8Cont b2 = true) :
    utf8Go (b :: b2 :: rest) = consOut 0xFFFD (utf8Go (b2 :: rest)) := by
  rw [utf8Go.eq_def]
  simp only [if_neg (show ¬ b < 0x80 by omega), if_neg h1, if_pos h2, if_neg hc]

theorem utf8Go_l3_pend1 (b : Nat) (h1 : ¬ b ≤ 0xDF) (h2 : b ≤ 0xEF) :
    utf8Go [b] = ([], [b]) := by
  rw [utf8Go.eq_def]
  simp only [if_neg (show ¬ b < 0x80 by omega), if_neg (show ¬ b < 0xC2 by omega),
    if_neg h1, if_pos h2]

theorem utf8Go_l3_pend2 (b b2 : Nat) (h1 : ¬ b ≤ 0xDF) (h2 : b ≤ 0xEF)
    (hc : utf8ContIn b b2 = true) :
    utf8Go [b, b2] = ([], [b, b2]) := by
  rw [utf8Go.eq_def]
  simp only [if_neg (show ¬ b < 0x80 by omega), if_neg (show ¬ b < 0xC2 by omega),
    if_neg h1, if_pos h2, if_pos hc]

theorem utf8Go_l3_ok (b b2 b3 : Nat) (rest : List Nat) (h1 : ¬ b ≤ 0xDF) (h2 : b ≤ 0xEF)
    (hc2 : utf8ContIn b b2 = true) (hc3 : utf8Cont b3 = true) :
    utf8Go (b :: b2 :: b3 :: rest) = consOut (cp3 b b2 b3) (utf8Go rest) := by
  rw [utf8Go.eq_def]
  simp only [if_neg (show ¬ b < 0x80 by omega), if_neg (show ¬ b < 0xC2 by omega),
    if_neg h1, if_pos h2, if_pos hc2, if_pos hc3]

theorem utf8Go_l3_bad3 (b b2 b3 : Nat) (rest : List Nat) (h1 : ¬ b ≤ 0xDF) (h2 : b ≤ 0xEF)
    (hc2 : utf8ContIn b b2 = true) (hc3 : ¬ utf8Cont b3 = true) :
    utf8Go (b :: b2 :: b3 :: rest) = consOut 0xFFFD (utf8Go (b3 :: rest)) := by
  rw [utf8Go.eq_def]
  simp only [if_neg (show ¬ b < 0x80 by omega), if_neg (show ¬ b < 0xC2 by omega),
    if_neg h1, if_pos h2, if_pos hc2, if_neg hc3]

theorem utf8Go_l3_bad2 (b b2 : Nat) (rest : List Nat) (h1 : ¬ b ≤ 0xDF) (h2 : b ≤ 0xEF)
    (hc2 : ¬ utf8ContIn b b2 = true) :
    utf8Go (b :: b2 :: rest) = consOut 0xFFFD (utf8Go (b2 :: rest)) := by
  rw [utf8Go.eq_def]
  simp only [if_neg (show ¬ b < 0x80 by omega), if_neg (show ¬ b < 0xC2 by omega),
    if_neg h1, if_pos h2, if_neg hc2]

theorem utf8Go_l4_pend1 (b : Nat) (h1 : ¬ b ≤ 0xEF) (h2 : b ≤ 0xF4) :
    utf8Go [b] = ([], [b]) := by
  rw [utf8Go.eq_def]
  simp only [if_neg (show ¬ b < 0x80 by omega), if_neg (show ¬ b < 0xC2 by omega),
    if_neg (show ¬ b ≤ 0xDF by omega), if_neg h1, if_pos h2]

theorem utf8Go_l4_pend2 (b b2 : Nat) (h1 : ¬ b ≤ 0xEF) (h2 : b ≤ 0xF4)
    (hc : utf8ContIn b b2 = true) :
    utf8Go [b, b2] = ([], [b, b2]) := by
  rw [utf8Go.eq_def]
  simp only [if_neg (show ¬ b < 0x80 by omega), if_neg (show ¬ b < 0xC2 by omega),
    if_neg (show ¬ b ≤ 0xDF by omega), if_neg h1, if_pos h2, if_pos hc]

theorem utf8Go_l4_pend3 (b b2 b3 : Nat) (h1 : ¬ b ≤ 0xEF) (h2 : b ≤ 0xF4)
    (hc2 : utf8ContIn b b2 = true) (hc3 : utf8Cont b3 = true) :
    utf8Go [b, b2, b3] = ([], [b, b2, b3]) := by
  rw [utf8Go.eq_def]
  simp only [if_neg (show ¬ b < 0x80 by omega), if_neg (show ¬ b < 0xC2 by omega),
    if_neg (show ¬ b ≤ 0xDF by omega), if_neg h1, if_pos h2, if_pos hc2, if_pos hc3]

theorem utf8Go_l4_ok (b b2 b3 b4 : Nat) (rest : List Nat) (h1 : ¬ b ≤ 0xEF) (h2 : b ≤ 0xF4)
    (hc2 : utf8ContIn b b2 = true) (hc3 : utf8Cont b3 = true) (hc4 : utf8Cont b4 = true) :
    utf8Go (b :: b2 :: b3 :: b4 :: rest) = consOut (cp4 b b2 b3 b4) (utf8Go rest) := by
  rw [utf8Go.eq_def]
  simp only [if_neg (show ¬ b < 0x80 by omega), if_neg (show ¬ b < 0xC2 by omega),
    if_neg (show ¬ b ≤ 0xDF by omega), if_neg h1, if_pos h2, if_pos hc2, if_pos hc3, if_pos hc4]

theorem utf8Go_l4_bad4 (b b2 b3 b4 : Nat) (rest : List Nat) (h1 : ¬ b ≤ 0xEF) (h2 : b ≤ 0xF4)
    (hc2 : utf8ContIn b b2 = true) (hc3 : utf8Cont b3 = true) (hc4 : ¬ utf8Cont b4 = true) :
    utf8Go (b :: b2 :: b3 :: b4 :: rest) = consOut 0xFFFD (utf8Go (b4 :: rest)) := by
  rw [utf8Go.eq_def]
  simp only [if_neg (show ¬ b < 0x80 by omega), if_neg (show ¬ b < 0xC2 by omega),
    if_neg (show ¬ b ≤ 0xDF by omega), if_neg h1, if_pos h2, if_pos hc2, if_pos hc3, if_neg hc4]

theorem utf8Go_l4_bad3 (b b2 b3 : Nat) (rest : List Nat) (h1 : ¬ b ≤ 0xEF) (h2 : b ≤ 0xF4)
    (hc2 : utf8ContIn b b2 = true) (hc3 : ¬ utf8Cont b3 = true) :
    utf8Go (b :: b2 :: b3 :: rest) = consOut 0xFFFD (utf8Go (b3 :: rest)) := by
  rw [utf8Go.eq_def]
  simp only [if_neg (show ¬ b < 0x80 by omega), if_neg (show ¬ b < 0xC2 by omega),
    if_neg (show ¬ b ≤ 0xDF by omega), if_neg h1, if_pos h2, if_pos hc2, if_neg hc3]

theorem utf8Go_l4_bad2 (b b2 : Nat) (rest : List Nat) (h1 : ¬ b ≤ 0xEF) (h2 : b ≤ 0xF4)
    (hc2 : ¬ utf8ContIn b b2 = true) :
    utf8Go (b :: b2 :: rest) = consOut 0xFFFD (utf8Go (b2 :: rest)) := by
  rw [utf8Go.eq_def]
  simp only [if_neg (show ¬ b < 0x80 by omega), if_neg (show ¬ b < 0xC2 by omega),
    if_neg (show ¬ b ≤ 0xDF by omega), if_neg h1, if_pos h2, if_neg hc2]

/-- Streaming-mode composition of the utf-8 decoder: decoding `a ++ b`
in one pass agrees with decoding `a`, carrying the pending incomplete
bytes into `b`, and concatenating the outputs.  This is the
`{ stream: true }` carry of line 121. -/
theorem utf8Go_append (a b : List Nat) :
    utf8Go (a ++ b) =
      ((utf8Go a).1 ++ (utf8Go ((utf8Go a).2 ++ b)).1,
       (utf8Go ((utf8Go a).2 ++ b)).2) := by
  induction a using utf8Go.induct with
  | case1 => simp [utf8Go]
  | case2 b1 rest h ih => simp [utf8Go_ascii b1 _ h, consOut, ih]
  | case3 b1 rest h1 h2 ih => simp [utf8Go_stray b1 _ h1 h2, consOut, ih]
  | case4 b1 h1 h2 h3 =>
    simp [utf8Go_l2_pend b1 h2 h3]
  | case5 b1 h1 h2 h3 b2 rest hc ih =>
    simp [utf8Go_l2_ok b1 b2 _ h2 h3 hc, consOut, ih]
  | case6 b1 h1 h2 h3 b2 rest hc ih =>
    simp only [List.cons_append] at ih ⊢
    simp [utf8Go_l2_bad b1 b2 _ h2 h3 hc, consOut, ih]
  | case7 b1 h1 h2 h3 h4 => simp [utf8Go_l3_pend1 b1 h3 h4]
  | case8 b1 h1 h2 h3 h4 b2 hc => simp [utf8Go_l3_pend2 b1 b2 h3 h4 hc]
  | case9 b1 h1 h2 h3 h4 b2 hc2 b3 rest hc3 ih =>
    simp [utf8Go_l3_ok b1 b2 b3 _ h3 h4 hc2 hc3, consOut, ih]
  | case10 b1 h1 h2 h3 h4 b2 hc2 b3 rest hc3 ih =>
    simp only [List.cons_append] at ih ⊢
    simp [utf8Go_l3_bad3 b1 b2 b3 _ h3 h4 hc2 hc3, consOut, ih]
  | case11 b1 h1 h2 h3 h4 b2 rest hc2 ih =>
    simp only [List.cons_append] at ih ⊢
    simp [utf8Go_l3_bad2 b1 b2 _ h3 h4 hc2, consOut, ih]
  | case12 b1 h1 h2 h3 h4 h5 => simp [utf8Go_l4_pend1 b1 h4 h5]
  | case13 b1 h1 h2 h3 h4 h5 b2 hc => simp [utf8Go_l4_pend2 b1 b2 h4 h5 hc]
  | case14 b1 h1 h2 h3 h4 h5 b2 hc2 b3 hc3 => simp [utf8Go_l4_pend3 b1 b2 b3 h4 h5 hc2 hc3]
  | case15 b1 h1 h2 h3 h4 h5 b2 hc2 b3 hc3 b4 rest hc4 ih =>
    simp [utf8Go_l4_ok b1 b2 b3 b4 _ h4 h5 hc2 hc3 hc4, consOut, ih]
  | case16 b1 h1 h2 h3 h4 h5 b2 hc2 b3 hc3 b4 rest hc4 ih =>
    simp only [List.cons_append] at ih ⊢
    simp [utf8Go_l4_bad4 b1 b2 b3 b4 _ h4 h5 hc2 hc3 hc4, consOut, ih]
  | case17 b1 h1 h2 h3 h4 h5 b2 hc2 b3 rest hc3 ih =>
    simp only [List.cons_append] at ih ⊢
    simp [utf8Go_l4_bad3 b1 b2 b3 _ h4 h5 hc2 hc3, consOut, ih]
  | case18 b1 h1 h2 h3 h4 h5 b2 rest hc2 ih =>
    simp only [List.cons_append] at ih ⊢
    simp [utf8Go_l4_bad2 b1 b2 _ h4 h5 hc2, consOut, ih]
  | case19 b1 rest h1 h2 h3 h4 h5 ih =>
    simp [utf8Go_hi b1 _ (by omega), consOut, ih]

/-! ### Composing the chunk loop -/

theorem getLastD_append_right (E S : List (List Nat)) (d : List Nat) (h : S ≠ []) :
    (E ++ S).getLastD d = S.getLastD d := by
  induction E with
  | nil => rfl
  | cons e E ih =>
    cases S with
    | nil => exact absurd rfl h
    | cons s S2 => simp [List.getLastD]

theorem getLastD_concat (E : List (List Nat)) (r d : List Nat) :
    (E ++ [r]).getLastD d = r := by
  rw [getLastD_append_right E [r] d (by simp)]
  rfl

theorem processEvents_append (E F : List (List Nat)) :
    processEvents (E ++ F) =
      ((if (processEvents E).2 then (processEvents E).1
        else (processEvents E).1 ++ (processEvents F).1),
       ((processEvents E).2 || (processEvents F).2)) := by
  induction E with
  | nil => simp [processEvents]
  | cons e es ih =>
    simp only [List.cons_append, processEvents]
    by_cases h : (processLines (splitLines e)).2 = true
    · simp [h]
    · simp only [if_neg h, ih]
      by_cases h2 : (processEvents es).2 = true <;> simp [h2, ih]

/-- One read-loop iteration over concatenated bytes agrees with two
iterations, carrying the decoder state; fragments concatenate (nothing
after a sentinel) and the termination flag is the disjunction. -/
theorem stepChunk_append (st : DecState) (b1 b2 : List Nat) :
    stepChunk st (b1 ++ b2) =
      ((stepChunk st b1).1 ++
        (if (stepChunk st b1).2.2 then [] else (stepChunk (stepChunk st b1).2.1 b2).1),
       (stepChunk (stepChunk st b1).2.1 b2).2.1,
       ((stepChunk st b1).2.2 || (stepChunk (stepChunk st b1).2.1 b2).2.2)) := by
  have hassoc : st.pending ++ (b1 ++ b2) = (st.pending ++ b1) ++ b2 := by simp
  obtain ⟨E, r, hE, hEb⟩ :=
    splitBlank_append (st.buffer ++ (utf8Go (st.pending ++ b1)).1)
      (utf8Go ((utf8Go (st.pending ++ b1)).2 ++ b2)).1
  have hS := splitBlank_ne_nil
    (r ++ (utf8Go ((utf8Go (st.pending ++ b1)).2 ++ b2)).1)
  simp only [stepChunk, hassoc, utf8Go_append (st.pending ++ b1) b2]
  simp only [show
      st.buffer ++ ((utf8Go (st.pending ++ b1)).1 ++
        (utf8Go ((utf8Go (st.pending ++ b1)).2 ++ b2)).1) =
      (st.buffer ++ (utf8Go (st.pending ++ b1)).1) ++
        (utf8Go ((utf8Go (st.pending ++ b1)).2 ++ b2)).1 by simp,
    hEb, hE]
  simp only [List.dropLast_concat, getLastD_concat,
    List.dropLast_append_of_ne_nil _ hS,
    getLastD_append_right _ _ _ hS,
    processEvents_append]
  by_cases h : (processEvents E).2 = true <;> simp [h]

/-- The whole read loop run from a state equals one iteration on the
concatenation of the chunks. -/
theorem runChunks_eq_single (cs : List (List Nat)) (st : DecState) (c : List Nat) :
    runChunks st (c :: cs) =
      ((stepChunk st (c ++ cs.flatten)).1, (stepChunk st (c ++ cs.flatten)).2.2) := by
  induction cs generalizing st c with
  | nil =>
    simp only [runChunks, List.flatten_nil, List.append_nil]
    by_cases h : (stepChunk st c).2.2 = true <;> simp [h]
  | cons c2 cs ih =>
    conv_lhs => rw [runChunks]
    rw [ih]
    rw [show ((c2 :: cs).flatten : List Nat) = c2 ++ cs.flatten from List.flatten_cons ..]
    rw [stepChunk_append st c (c2 ++ cs.flatten)]
    by_cases h : (stepChunk st c).2.2 = true <;> simp [h]

/-- The decode of a chunk list only depends on the concatenated bytes. -/
theorem chatDecode_eq_join (cs : List (List Nat)) :
    chatDecode cs = ((stepChunk ⟨[], []⟩ cs.flatten).1, (stepChunk ⟨[], []⟩ cs.flatten).2.2) := by
  cases cs with
  | nil => rfl
  | cons c cs => exact runChunks_eq_single cs ⟨[], []⟩ c

/-! ### Line and fold helpers -/

theorem processLines_done (pre : List (List Nat)) (l : List Nat) (suf : List (List Nat))
    (hp : dataTag.isPrefixOf l = true) (hr : jsTrim (l.drop 5) = doneTok) :
    processLines (pre ++ l :: suf) = ((processLines pre).1, true) := by
  have hline : processLine l = LineOut.done := by
    simp [processLine, hp, hr]
  induction pre with
  | nil => simp [processLines, hline]
  | cons p ps ih =>
    simp only [List.cons_append, processLines]
    cases processLine p <;> simp_all [processLines]

theorem foldChunk_assistant (msgs : List Message) (last : Message)
    (hl : msgs.getLast? = some last) (hrole : last.role = Role.assistant) (f : List Nat) :
    foldChunk msgs f = msgs.dropLast ++ [⟨Role.assistant, last.content ++ f⟩] := by
  simp [foldChunk, hl, hrole]

theorem foldl_foldChunk (frags : List (List Nat)) :
    ∀ (msgs : List Message) (last : Message),
      msgs.getLast? = some last → last.role = Role.assistant →
      frags.foldl foldChunk msgs =
        msgs.dropLast ++ [⟨Role.assistant, last.content ++ frags.flatten⟩] := by
  induction frags with
  | nil =>
    intro msgs last hl hrole
    simp only [List.foldl_nil, List.flatten_nil, List.append_nil]
    have hne : msgs ≠ [] := by
      intro h; rw [h] at hl; simp at hl
    conv_lhs => rw [← List.dropLast_append_getLast hne]
    rw [List.getLast?_eq_getLast msgs hne] at hl
    have : msgs.getLast hne = last := by injection hl
    rw [this]
    have : last = ⟨Role.assistant, last.content⟩ := by
      cases last with
      | mk r c => simp at hrole ⊢; exact hrole
    rw [← this]
  | cons f fs ih =>
    intro msgs last hl hrole
    simp only [List.foldl_cons]
    rw [foldChunk_assistant msgs last hl hrole f]
    have h1 : (msgs.dropLast ++ [(⟨Role.assistant, last.content ++ f⟩ : Message)]).getLast? =
        some ⟨Role.assistant, last.content ++ f⟩ := List.getLast?_concat _
    have hfold := ih (msgs.dropLast ++ [⟨Role.assistant, last.content ++ f⟩])
      ⟨Role.assistant, last.content ++ f⟩ h1 rfl
    rw [hfold]
    simp [List.flatten_cons]

theorem jsJoinEmptyN_strings (ss : List (List Nat)) :
    ∀ f : Nat, ss.length ≤ f →
      jsJoinEmptyN f (ss.map JsValue.vStr) = ss.flatten := by
  induction ss with
  | nil => intro f _; rfl
  | cons s rest ih =>
    intro f hf
    have hf2 : rest.length + 1 ≤ f := by simpa using hf
    obtain ⟨g, rfl⟩ : ∃ g, f = g + 1 := ⟨f - 1, by omega⟩
    cases rest with
    | nil => simp [jsJoinEmptyN, jsCoAux]
    | cons s2 rest2 =>
      have hrec := ih (g) (by simp; simp at hf2; omega)
      simp only [jsJoinEmptyN] at hrec
      simp only [List.map_cons, jsJoinEmptyN, jsCoAux, List.flatten_cons] at hrec ⊢
      rw [hrec]
      simp

/-! ## The claims -/

/-- C1: for the wire input
`data: {"text":"Hel"}\n\ndata: {"text":"lo"}\n\ndata: [DONE]\n\n` the
decoder invokes its fragment callback exactly twice, with `Hel` then
`lo`, and terminates by the sentinel; the input `data: [DONE]\n\n` as
the first frame yields zero fragments and terminates; and in general a
payload line whose raw payload (after stripping the `data:` marker and
trimming) equals `[DONE]` terminates the line processing at once,
emitting nothing for it and discarding all later lines (the `true` flag
is the `reader.cancel(); return` path, which releases the source and
discards the remaining buffer). -/
theorem C1_sentinel_termination :
    chatDecode
        [strCodes "data: \x7b\"text\":\"Hel\"\x7d\n\ndata: \x7b\"text\":\"lo\"\x7d\n\ndata: [DONE]\n\n"] =
      ([strCodes "Hel", strCodes "lo"], true) ∧
    chatDecode [strCodes "data: [DONE]\n\n"] = ([], true) ∧
    ∀ (pre : List (List Nat)) (l : List Nat) (suf : List (List Nat)),
      dataTag.isPrefixOf l = true → jsTrim (l.drop 5) = doneTok →
      processLines (pre ++ l :: suf) = ((processLines pre).1, true) :=
  ⟨by decide, by decide, processLines_done⟩

theorem C1_sentinel_termination_witness :
    dataTag.isPrefixOf (strCodes "data: [DONE]") = true ∧
    jsTrim ((strCodes "data: [DONE]").drop 5) = doneTok ∧
    processLines ([strCodes "data: hello"] ++ strCodes "data: [DONE]" :: [strCodes "data: x"]) =
      ((processLines [strCodes "data: hello"]).1, true) :=
  ⟨by decide, by decide,
    C1_sentinel_termination.2.2 [strCodes "data: hello"] (strCodes "data: [DONE]")
      [strCodes "data: x"] (by decide) (by decide)⟩

/-- C2: while the transcript ends in an assistant message, folding any
fragment sequence leaves the length and every non-tail message
unchanged, and appends the concatenation of the fragments to the tail
message's content. -/
theorem C2_fold_appends_to_tail :
    ∀ (msgs : List Message) (last : Message) (frags : List (List Nat)),
      msgs.getLast? = some last → last.role = Role.assistant →
      frags.foldl foldChunk msgs =
        msgs.dropLast ++ [⟨Role.assistant, last.content ++ frags.flatten⟩] ∧
      (frags.foldl foldChunk msgs).length = msgs.length := by
  intro msgs last frags hl hrole
  have h := foldl_foldChunk frags msgs last hl hrole
  refine ⟨h, ?_⟩
  have hne : msgs ≠ [] := by
    intro hmm; rw [hmm] at hl; simp at hl
  rw [h]
  simp only [List.length_append, List.length_dropLast, List.length_cons, List.length_nil]
  have : 0 < msgs.length := List.length_pos.mpr hne
  omega

theorem C2_fold_appends_to_tail_witness :
    ([⟨Role.user, strCodes "hi"⟩, ⟨Role.assistant, strCodes "x"⟩] : List Message).getLast? =
        some ⟨Role.assistant, strCodes "x"⟩ ∧
    (⟨Role.assistant, strCodes "x"⟩ : Message).role = Role.assistant ∧
    (([strCodes "a", strCodes "b"] : List (List Nat)).foldl foldChunk
        [⟨Role.user, strCodes "hi"⟩, ⟨Role.assistant, strCodes "x"⟩] =
      ([⟨Role.user, strCodes "hi"⟩, ⟨Role.assistant, strCodes "x"⟩] : List Message).dropLast ++
        [⟨Role.assistant,
          (⟨Role.assistant, strCodes "x"⟩ : Message).content ++
            ([strCodes "a", strCodes "b"] : List (List Nat)).flatten⟩] ∧
      (([strCodes "a", strCodes "b"] : List (List Nat)).foldl foldChunk
          [⟨Role.user, strCodes "hi"⟩, ⟨Role.assistant, strCodes "x"⟩]).length =
        ([⟨Role.user, strCodes "hi"⟩, ⟨Role.assistant, strCodes "x"⟩] : List Message).length) :=
  ⟨by decide, by decide,
    C2_fold_appends_to_tail
      [⟨Role.user, strCodes "hi"⟩, ⟨Role.assistant, strCodes "x"⟩]
      ⟨Role.assistant, strCodes "x"⟩ [strCodes "a", strCodes "b"] (by decide) (by decide)⟩

/-- C3 (behavior of the code, contradicting the claim): for a payload
whose `text` field is the single-element array `["[DONE]"]`, the
decoder does not terminate; the strict-equality check on line 135 is
false for an array, the array check on line 136 is a discarded
expression, and the join path emits the fragment `[DONE]` instead. -/
theorem C3_array_sentinel_code_behavior :
    chatDecode [strCodes "data: \x7b\"text\":[\"[DONE]\"]\x7d\n\n"] = ([doneTok], false) := by
  decide

/-- C4: a payload line whose raw payload fails JSON parsing makes the
decoder emit the raw payload itself and continue with the rest; in
particular the frame `data: not-json\n\n` yields the fragment
`not-json` without terminating. -/
theorem C4_parse_failure_raw_passthrough :
    (∀ (l : List Nat) (ls : List (List Nat)),
      dataTag.isPrefixOf l = true →
      jsTrim (l.drop 5) ≠ doneTok →
      jsonParse (jsTrim (l.drop 5)) = none →
      processLines (l :: ls) =
        (jsTrim (l.drop 5) :: (processLines ls).1, (processLines ls).2)) ∧
    chatDecode [strCodes "data: not-json\n\n"] = ([strCodes "not-json"], false) := by
  constructor
  · intro l ls hp hne hparse
    simp [processLines, processLine, hp, hne, hparse]
  · decide

theorem C4_parse_failure_raw_passthrough_witness :
    dataTag.isPrefixOf (strCodes "data: not-json") = true ∧
    jsTrim ((strCodes "data: not-json").drop 5) ≠ doneTok ∧
    jsonParse (jsTrim ((strCodes "data: not-json").drop 5)) = none ∧
    processLines [strCodes "data: not-json"] =
      (jsTrim ((strCodes "data: not-json").drop 5) :: (processLines ([] : List (List Nat))).1,
       (processLines ([] : List (List Nat))).2) :=
  ⟨by decide, by decide, by rfl,
    C4_parse_failure_raw_passthrough.1 (strCodes "data: not-json") [] (by decide) (by decide)
      (by rfl)⟩

/-- C5 (counterexample): the claim as stated is false at the wire
frame `data: null\n\n`.  The payload parses successfully to the JSON
literal `null`, whose `text` field is not the sentinel, so the claim
demands the string coercion of the (undefined) field, `undefined`;
the code instead throws a TypeError on the `msg.text` access inside
the try (line 135) and the catch emits the raw payload `null`. -/
theorem C5_text_normalization_counterexample :
    jsonParse (strCodes "null") = some JsValue.vNull ∧
    isTextDone (getField JsValue.vNull textKeyCodes) = false ∧
    chatDecode [strCodes "data: null\n\n"] = ([strCodes "null"], false) ∧
    chatDecode [strCodes "data: null\n\n"] ≠
      ([normalizeText (strCodes "null").length (getField JsValue.vNull textKeyCodes)],
       false) :=
  ⟨by rfl, by rfl, by decide, by decide⟩

/-- C5 (amended): a successfully parsed payload other than the JSON
literal `null` (on `null` the field access throws inside the try and
the catch falls back to the raw payload) whose `text` field is not the
sentinel emits exactly one fragment, the normalization of the field:
an array of strings becomes the single fragment equal to their
concatenation, a string passes through unchanged, and any other value
is coerced with `String(...)`; in particular
`data: {"text":["a","b","c"]}\n\n` yields the single fragment `abc`. -/
theorem C5_text_normalization :
    (∀ (l : List Nat) (ls : List (List Nat)) (v : JsValue),
      dataTag.isPrefixOf l = true →
      jsTrim (l.drop 5) ≠ doneTok →
      jsonParse (jsTrim (l.drop 5)) = some v →
      v ≠ JsValue.vNull →
      isTextDone (getField v textKeyCodes) = false →
      processLines (l :: ls) =
        (normalizeText (jsTrim (l.drop 5)).length (getField v textKeyCodes) ::
           (processLines ls).1,
         (processLines ls).2)) ∧
    (∀ (f : Nat) (ss : List (List Nat)), ss.length ≤ f →
      normalizeText f (JsValue.vArr (ss.map JsValue.vStr)) = ss.flatten) ∧
    (∀ (f : Nat) (s : List Nat), normalizeText f (JsValue.vStr s) = s) ∧
    (∀ (f : Nat) (v : JsValue), (∀ es, v ≠ JsValue.vArr es) → (∀ s, v ≠ JsValue.vStr s) →
      normalizeText f v = jsToStringN f v) ∧
    chatDecode [strCodes "data: \x7b\"text\":[\"a\",\"b\",\"c\"]\x7d\n\n"] =
      ([strCodes "abc"], false) := by
  refine ⟨?_, ?_, ?_, ?_, by decide⟩
  · intro l ls v hp hne hparse hnull hnd
    cases v with
    | vNull => exact absurd rfl hnull
    | vStr s => simp [processLines, processLine, hp, hne, hparse, hnd]
    | vNum n => simp [processLines, processLine, hp, hne, hparse, hnd]
    | vBool b => simp [processLines, processLine, hp, hne, hparse, hnd]
    | vArr es => simp [processLines, processLine, hp, hne, hparse, hnd]
    | vObj ms => simp [processLines, processLine, hp, hne, hparse, hnd]
    | vUndef => simp [processLines, processLine, hp, hne, hparse, hnd]
  · intro f ss hf
    simpa [normalizeText] using jsJoinEmptyN_strings ss f hf
  · intro f s
    rfl
  · intro f v harr hstr
    cases v with
    | vArr es => exact absurd rfl (harr es)
    | vStr s => exact absurd rfl (hstr s)
    | vNum n => rfl
    | vBool b => rfl
    | vNull => rfl
    | vObj ms => rfl
    | vUndef => rfl

theorem C5_text_normalization_witness :
    ([strCodes "a", strCodes "b", strCodes "c"] : List (List Nat)).length ≤ 3 ∧
    normalizeText 3
        (JsValue.vArr (([strCodes "a", strCodes "b", strCodes "c"] : List (List Nat)).map
          JsValue.vStr)) =
      ([strCodes "a", strCodes "b", strCodes "c"] : List (List Nat)).flatten :=
  ⟨by decide, C5_text_normalization.2.1 3 [strCodes "a", strCodes "b", strCodes "c"] (by decide)⟩

/-- C7: a non-ok status or a missing body makes chatWithLLM throw
before any fragment is emitted (the error result carries no
fragments), the transcript then holds only the user message and the
empty assistant placeholder, and for every response whatsoever the
streaming flag ends false (the `finally` on line 63). -/
theorem C7_transport_error_cleanup :
    ∀ (st : ChatState) (input : List Nat) (res : ChatResponse),
      jsTrim input ≠ [] →
      (res.ok = false ∨ res.body = none) →
      (∃ e, chatWithLLMModel res = Except.error e) ∧
      (handleSendModel st input res).messages =
        st.messages ++ [⟨Role.user, input⟩, ⟨Role.assistant, []⟩] ∧
      ∀ res2 : ChatResponse, (handleSendModel st input res2).streaming = false := by
  intro st input res hin hbad
  have herr : ∃ e, chatWithLLMModel res = Except.error e := by
    by_cases hok : res.ok = true
    · rcases hbad with hbad | hbad
      · rw [hok] at hbad; cases hbad
      · exact ⟨ChatError.noBody, by simp [chatWithLLMModel, hok, hbad]⟩
    · exact ⟨ChatError.requestFailed res.status, by simp [chatWithLLMModel, hok]⟩
  refine ⟨herr, ?_, ?_⟩
  · obtain ⟨e, he⟩ := herr
    simp [handleSendModel, hin, he]
  · intro res2
    simp [handleSendModel, hin]

theorem C7_transport_error_cleanup_witness :
    jsTrim (strCodes "hi") ≠ [] ∧
    ((⟨false, 500, none⟩ : ChatResponse).ok = false ∨
      (⟨false, 500, none⟩ : ChatResponse).body = none) ∧
    ((∃ e, chatWithLLMModel ⟨false, 500, none⟩ = Except.error e) ∧
      (handleSendModel ⟨[], false⟩ (strCodes "hi") ⟨false, 500, none⟩).messages =
        ([] : List Message) ++ [⟨Role.user, strCodes "hi"⟩, ⟨Role.assistant, []⟩] ∧
      ∀ res2 : ChatResponse,
        (handleSendModel ⟨[], false⟩ (strCodes "hi") res2).streaming = false) :=
  ⟨by decide, Or.inl rfl,
    C7_transport_error_cleanup ⟨[], false⟩ (strCodes "hi") ⟨false, 500, none⟩ (by decide)
      (Or.inl rfl)⟩

/-- C8: an input that trims to the empty string makes handleSend return
with no effect at all: the state (transcript and streaming flag) is
exactly unchanged. -/
theorem C8_blank_input_noop :
    ∀ (st : ChatState) (input : List Nat) (res : ChatResponse),
      jsTrim input = [] → handleSendModel st input res = st := by
  intro st input res h
  simp [handleSendModel, h]

theorem C8_blank_input_noop_witness :
    jsTrim (strCodes "   ") = [] ∧
    handleSendModel ⟨[⟨Role.user, strCodes "old"⟩], false⟩ (strCodes "   ")
        ⟨true, 200, some []⟩ =
      ⟨[⟨Role.user, strCodes "old"⟩], false⟩ :=
  ⟨by decide,
    C8_blank_input_noop ⟨[⟨Role.user, strCodes "old"⟩], false⟩ (strCodes "   ")
      ⟨true, 200, some []⟩ (by decide)⟩

/-- C9: a multi-byte utf-8 character split at any point across two
reads is never decoded prematurely: the first part yields no code point
and is carried over in full as the decoder's pending state, and feeding
the carried bytes with the second part yields exactly the one correct
code point. -/
theorem C9_utf8_boundary_carry (c : Nat) (h1 : 0x80 ≤ c) (h2 : c < 0x110000)
    (h3 : ¬ (0xD800 ≤ c ∧ c ≤ 0xDFFF)) (i : Nat) (hi1 : 0 < i)
    (hi2 : i < (utf8Encode c).length) :
    utf8Go ((utf8Encode c).take i) = ([], (utf8Encode c).take i) ∧
    utf8Go ((utf8Encode c).take i ++ (utf8Encode c).drop i) = ([c], []) := by
  by_cases hA : c < 0x800
  · have henc : utf8Encode c = [0xC0 + c / 0x40, 0x80 + c % 0x40] := by
      simp only [utf8Encode, if_neg (show ¬ c < 0x80 by omega), if_pos hA]
    have hlead1 : ¬ (0xC0 + c / 0x40) < 0xC2 := by omega
    have hlead2 : (0xC0 + c / 0x40) ≤ 0xDF := by omega
    have hcont : utf8Cont (0x80 + c % 0x40) = true := by
      simp only [utf8Cont, decide_eq_true_eq]; omega
    have hi : i = 1 := by rw [henc] at hi2; simp at hi2; omega
    subst hi
    rw [henc]
    constructor
    · simpa using utf8Go_l2_pend _ hlead1 hlead2
    · simp only [List.take, List.drop, List.cons_append, List.nil_append]
      rw [utf8Go_l2_ok _ _ _ hlead1 hlead2 hcont]
      have : cp2 (0xC0 + c / 0x40) (0x80 + c % 0x40) = c := by
        simp only [cp2]; omega
      simp [consOut, utf8Go, this]
  · by_cases hB : c < 0x10000
    · have henc : utf8Encode c =
          [0xE0 + c / 0x1000, 0x80 + (c / 0x40) % 0x40, 0x80 + c % 0x40] := by
        simp only [utf8Encode, if_neg (show ¬ c < 0x80 by omega), if_neg hA, if_pos hB]
      have hlead1 : ¬ (0xE0 + c / 0x1000) ≤ 0xDF := by omega
      have hlead2 : (0xE0 + c / 0x1000) ≤ 0xEF := by omega
      have hcont2 : utf8ContIn (0xE0 + c / 0x1000) (0x80 + (c / 0x40) % 0x40) = true := by
        simp only [utf8ContIn, utf8Lo, utf8Hi, decide_eq_true_eq]
        split_ifs <;> omega
      have hcont3 : utf8Cont (0x80 + c % 0x40) = true := by
        simp only [utf8Cont, decide_eq_true_eq]; omega
      have hcp : cp3 (0xE0 + c / 0x1000) (0x80 + (c / 0x40) % 0x40) (0x80 + c % 0x40) = c := by
        simp only [cp3]; omega
      have hi : i = 1 ∨ i = 2 := by rw [henc] at hi2; simp at hi2; omega
      rw [henc]
      rcases hi with rfl | rfl
      · constructor
        · simpa using utf8Go_l3_pend1 _ hlead1 hlead2
        · simp only [List.take, List.drop, List.cons_append, List.nil_append]
          rw [utf8Go_l3_ok _ _ _ _ hlead1 hlead2 hcont2 hcont3]
          simp [consOut, utf8Go, hcp]
      · constructor
        · simpa using utf8Go_l3_pend2 _ _ hlead1 hlead2 hcont2
        · simp only [List.take, List.drop, List.cons_append, List.nil_append]
          rw [utf8Go_l3_ok _ _ _ _ hlead1 hlead2 hcont2 hcont3]
          simp [consOut, utf8Go, hcp]
    · have henc : utf8Encode c =
          [0xF0 + c / 0x40000, 0x80 + (c / 0x1000) % 0x40,
           0x80 + (c / 0x40) % 0x40, 0x80 + c % 0x40] := by
        simp only [utf8Encode, if_neg (show ¬ c < 0x80 by omega), if_neg hA, if_neg hB]
      have hlead1 : ¬ (0xF0 + c / 0x40000) ≤ 0xEF := by omega
      have hlead2 : (0xF0 + c / 0x40000) ≤ 0xF4 := by omega
      have hcont2 : utf8ContIn (0xF0 + c / 0x40000) (0x80 + (c / 0x1000) % 0x40) = true := by
        simp only [utf8ContIn, utf8Lo, utf8Hi, decide_eq_true_eq]
        split_ifs <;> omega
      have hcont3 : utf8Cont (0x80 + (c / 0x40) % 0x40) = true := by
        simp only [utf8Cont, decide_eq_true_eq]; omega
      have hcont4 : utf8Cont (0x80 + c % 0x40) = true := by
        simp only [utf8Cont, decide_eq_true_eq]; omega
      have hcp : cp4 (0xF0 + c / 0x40000) (0x80 + (c / 0x1000) % 0x40)
          (0x80 + (c / 0x40) % 0x40) (0x80 + c % 0x40) = c := by
        simp only [cp4]; omega
      have hi : i = 1 ∨ i = 2 ∨ i = 3 := by rw [henc] at hi2; simp at hi2; omega
      rw [henc]
      rcases hi with rfl | rfl | rfl
      · constructor
        · simpa using utf8Go_l4_pend1 _ hlead1 hlead2
        · simp only [List.take, List.drop, List.cons_append, List.nil_append]
          rw [utf8Go_l4_ok _ _ _ _ _ hlead1 hlead2 hcont2 hcont3 hcont4]
          simp [consOut, utf8Go, hcp]
      · constructor
        · simpa using utf8Go_l4_pend2 _ _ hlead1 hlead2 hcont2
        · simp only [List.take, List.drop, List.cons_append, List.nil_append]
          rw [utf8Go_l4_ok _ _ _ _ _ hlead1 hlead2 hcont2 hcont3 hcont4]
          simp [consOut, utf8Go, hcp]
      · constructor
        · simpa using utf8Go_l4_pend3 _ _ _ hlead1 hlead2 hcont2 hcont3
        · simp only [List.take, List.drop, List.cons_append, List.nil_append]
          rw [utf8Go_l4_ok _ _ _ _ _ hlead1 hlead2 hcont2 hcont3 hcont4]
          simp [consOut, utf8Go, hcp]

theorem C9_utf8_boundary_carry_witness :
    0x80 ≤ 0x20AC ∧ 0x20AC < 0x110000 ∧ ¬ (0xD800 ≤ 0x20AC ∧ 0x20AC ≤ 0xDFFF) ∧
    0 < 2 ∧ 2 < (utf8Encode 0x20AC).length ∧
    (utf8Go ((utf8Encode 0x20AC).take 2) = ([], (utf8Encode 0x20AC).take 2) ∧
     utf8Go ((utf8Encode 0x20AC).take 2 ++ (utf8Encode 0x20AC).drop 2) = ([0x20AC], [])) :=
  ⟨by decide, by decide, by decide, by decide, by decide,
    C9_utf8_boundary_carry 0x20AC (by decide) (by decide) (by decide) 2 (by decide) (by decide)⟩

/-- C10: the decoder's output (fragment sequence and termination) only
depends on the concatenation of the response bytes, not on where the
read boundaries fall: the streaming text decode carries incomplete
utf-8 sequences and `buffer = events.pop()` carries the unterminated
frame remainder. -/
theorem C10_chunking_invariance (cs1 cs2 : List (List Nat))
    (h : cs1.flatten = cs2.flatten) :
    chatDecode cs1 = chatDecode cs2 := by
  rw [chatDecode_eq_join, chatDecode_eq_join, h]

theorem C10_chunking_invariance_witness :
    ([strCodes "data: \x7b\"text\":\"" ++ [0xC3], [0xA9] ++ strCodes "\"\x7d\n\n"] :
        List (List Nat)).flatten =
      ([strCodes "data: \x7b\"text\":\"" ++ [0xC3, 0xA9] ++ strCodes "\"\x7d\n\n"] :
        List (List Nat)).flatten ∧
    chatDecode [strCodes "data: \x7b\"text\":\"" ++ [0xC3], [0xA9] ++ strCodes "\"\x7d\n\n"] =
      chatDecode [strCodes "data: \x7b\"text\":\"" ++ [0xC3, 0xA9] ++ strCodes "\"\x7d\n\n"] :=
  ⟨by decide,
    C10_chunking_invariance
      [strCodes "data: \x7b\"text\":\"" ++ [0xC3], [0xA9] ++ strCodes "\"\x7d\n\n"]
      [strCodes "data: \x7b\"text\":\"" ++ [0xC3, 0xA9] ++ strCodes "\"\x7d\n\n"] (by decide)⟩

end Karllm
